import Mathlib

/-!
Formal model of kitty's line buffer (src/kitty/line-buf.c).

The LineBuf structure stores a grid of terminal cells in five parallel
flat arrays (character+attributes word, fg color, bg color, decoration
color, combining characters), addressed through an indirection array
(line_map : logical row -> physical slot), with a parallel array of
soft-wrap continuation flags and a scratch array used by the region
shift operators.

C loops that write one index per iteration are translated into
structurally recursive functions over lists; each loop below reads only
positions that the remaining iterations have not yet written, so the
result is characterised pointwise against the initial list.

Machine integers (index_type, char_type) are modelled as Nat; the cell
word packs the character in the low 24 bits and attributes above
ATTRS_SHIFT = 24, as described in the spec (the concrete header
data-types.h is not part of the sources; only the facts that the blank
cell has character code 32 and that the mask extracts the low bits are
used).
-/

/-- ATTRS_SHIFT from data-types.h. Modelled from the spec: the packed
character+attribute word keeps the character code in the low bits and
the attribute bitfield (starting with the width) above this shift. -/
def ATTRS_SHIFT : Nat := 24

/-- CHAR_MASK from data-types.h. Modelled from the spec: mask extracting
the character code from the packed cell word. -/
def CHAR_MASK : Nat := 2 ^ 24 - 1

/-- The cell word written by clear operations: a space (32) with width 1
(the 1 bit just above ATTRS_SHIFT), as in clear_chars_to. -/
def BLANK_CELL : Nat := (1 <<< ATTRS_SHIFT) ||| 32

/-- Generic translation of the C loop
  for (k = 0; k < s; k++) l[i+k] = l[i+k+d];
used (with d = 1) by linebuf_index and (with d = num) by
linebuf_delete_lines, on both line_map and continued_map. -/
def shiftSegUp {α : Type} (d0 : α) (d : Nat) : List α → Nat → Nat → List α
  | l, _, 0 => l
  | l, i, Nat.succ s => shiftSegUp d0 d (l.set i (l.getD (i + d) d0)) (i + 1) s

/-- Generic translation of the C loop
  for (k = 0; k < s; k++) l[i-k] = l[i-k-d];
used (with d = 1) by linebuf_reverse_index and (with d = num) by
linebuf_insert_lines, on both line_map and continued_map. -/
def shiftSegDown {α : Type} (d0 : α) (d : Nat) : List α → Nat → Nat → List α
  | l, _, 0 => l
  | l, i, Nat.succ s => shiftSegDown d0 d (l.set i (l.getD (i - d) d0)) (i - 1) s

/-- Generic translation of the C loop
  for (k = 0; k < s; k++) dst[i+k] = src[j+k];
used for the scratch save and scratch restore loops of
linebuf_insert_lines and linebuf_delete_lines (dst and src are always
distinct arrays there). -/
def copySeg {α : Type} (d0 : α) : List α → List α → Nat → Nat → Nat → List α
  | dst, _, _, _, 0 => dst
  | dst, src, i, j, Nat.succ s => copySeg d0 (dst.set i (src.getD j d0)) src (i + 1) (j + 1) s

/-- Generic translation of the C loop
  for (k = 0; k < s; k++) l[i+k] = v;
used to model memset/CLEAR_LINE style range fills. -/
def setSeg {α : Type} (v : α) : List α → Nat → Nat → List α
  | l, _, 0 => l
  | l, i, Nat.succ s => setSeg v (l.set i v) (i + 1) s

/-- Translation of the loop `for (i = 0; i < n; i++) l[i] = i;` that
resets line_map to the identity in linebuf_clear and new. -/
def identSeg : List Nat → Nat → Nat → List Nat
  | l, _, 0 => l
  | l, i, Nat.succ s => identSeg (l.set i i) (i + 1) s

/-- The LineBuf object (line-buf.c). block_size = xnum * ynum; the five
cell arrays each have block_size entries, line_map / scratch /
continued_map have ynum entries. -/
structure LineBuf where
  xnum : Nat
  ynum : Nat
  chars : List Nat
  fg_colors : List Nat
  bg_colors : List Nat
  decoration_fg : List Nat
  combining_chars : List Nat
  line_map : List Nat
  scratch : List Nat
  continued_map : List Bool
deriving DecidableEq, Repr

/-- The Line object: five column arrays of one row plus the continuation
flag and the logical row number (line.h is not part of the sources; the
fields are those used by line-buf.c and described by the spec's Row
View). -/
structure Line where
  xnum : Nat
  ynum : Nat
  continued : Bool
  chars : List Nat
  fg_colors : List Nat
  bg_colors : List Nat
  decoration_fg : List Nat
  combining_chars : List Nat
deriving DecidableEq, Repr

/-- Well-formedness: every array has the length the C code allocates
for it (the C arrays have these sizes by construction). -/
def WF (lb : LineBuf) : Prop :=
  lb.line_map.length = lb.ynum ∧
  lb.scratch.length = lb.ynum ∧
  lb.continued_map.length = lb.ynum ∧
  lb.chars.length = lb.xnum * lb.ynum ∧
  lb.fg_colors.length = lb.xnum * lb.ynum ∧
  lb.bg_colors.length = lb.xnum * lb.ynum ∧
  lb.decoration_fg.length = lb.xnum * lb.ynum ∧
  lb.combining_chars.length = lb.xnum * lb.ynum

instance (lb : LineBuf) : Decidable (WF lb) := by
  unfold WF; infer_instance

/-- linebuf_clear: memset of the arena to zero, then clear_chars_to on
every row (chars become a blank space with width 1), continuation flags
all cleared, line_map reset to the identity.  The scratch array is not
touched. -/
def linebuf_clear (self : LineBuf) (ch : Nat) : LineBuf :=
  { self with
    chars := List.replicate (self.xnum * self.ynum) ((1 <<< ATTRS_SHIFT) ||| ch)
    fg_colors := List.replicate (self.xnum * self.ynum) 0
    bg_colors := List.replicate (self.xnum * self.ynum) 0
    decoration_fg := List.replicate (self.xnum * self.ynum) 0
    combining_chars := List.replicate (self.xnum * self.ynum) 0
    continued_map := List.replicate self.ynum false
    line_map := identSeg self.line_map 0 self.ynum }

/-- new (tp_new): validates the dimensions, then builds the zeroed
arrays (PyMem_Calloc), sets line_map to the identity and the chars of
every row to blank spaces.  Returns none on the InvalidSize errors; the
allocation-failure path is modelled separately (see newFailureFrees). -/
def linebuf_new (ynum xnum : Nat) : Option LineBuf :=
  if 5000 < xnum ∨ 50000 < ynum then none
  else if xnum * ynum = 0 then none
  else some
    { xnum := xnum
      ynum := ynum
      chars := List.replicate (xnum * ynum) ((1 <<< ATTRS_SHIFT) ||| 32)
      fg_colors := List.replicate (xnum * ynum) 0
      bg_colors := List.replicate (xnum * ynum) 0
      decoration_fg := List.replicate (xnum * ynum) 0
      combining_chars := List.replicate (xnum * ynum) 0
      line_map := identSeg (List.replicate ynum 0) 0 ynum
      scratch := List.replicate ynum 0
      continued_map := List.replicate ynum false }

/-- linebuf_index ("scroll up"): rotates line_map and continued_map in
[top, bottom] left by one; no-op on out-of-range or degenerate input. -/
def linebuf_index (self : LineBuf) (top bottom : Nat) : LineBuf :=
  if self.ynum - 1 ≤ top ∨ self.ynum ≤ bottom ∨ bottom ≤ top then self
  else
    let old_top := self.line_map.getD top 0
    let old_cont := self.continued_map.getD top false
    { self with
      line_map := (shiftSegUp 0 1 self.line_map top (bottom - top)).set bottom old_top
      continued_map :=
        (shiftSegUp false 1 self.continued_map top (bottom - top)).set bottom old_cont }

/-- linebuf_reverse_index ("scroll down"): rotates line_map and
continued_map in [top, bottom] right by one; same no-op policy. -/
def linebuf_reverse_index (self : LineBuf) (top bottom : Nat) : LineBuf :=
  if self.ynum - 1 ≤ top ∨ self.ynum ≤ bottom ∨ bottom ≤ top then self
  else
    let old_bottom := self.line_map.getD bottom 0
    let old_cont := self.continued_map.getD bottom false
    { self with
      line_map := (shiftSegDown 0 1 self.line_map bottom (bottom - top)).set top old_bottom
      continued_map :=
        (shiftSegDown false 1 self.continued_map bottom (bottom - top)).set top old_cont }

/-- One iteration of the final loop of linebuf_insert_lines /
linebuf_delete_lines: INIT_LINE at the physical slot line_map[i],
CLEAR_LINE on it (modelled from the spec, data-types.h not being in the
sources: the row's five arrays become blank-space/zero, as in
linebuf_clear), and continued_map[i] = 0. -/
def blankRow1 (self : LineBuf) (i : Nat) : LineBuf :=
  { self with
    chars := setSeg BLANK_CELL self.chars (self.line_map.getD i 0 * self.xnum) self.xnum
    fg_colors := setSeg 0 self.fg_colors (self.line_map.getD i 0 * self.xnum) self.xnum
    bg_colors := setSeg 0 self.bg_colors (self.line_map.getD i 0 * self.xnum) self.xnum
    decoration_fg := setSeg 0 self.decoration_fg (self.line_map.getD i 0 * self.xnum) self.xnum
    combining_chars := setSeg 0 self.combining_chars (self.line_map.getD i 0 * self.xnum) self.xnum
    continued_map := self.continued_map.set i false }

/-- The final loop of linebuf_insert_lines / linebuf_delete_lines:
for each logical row i in [start, start+s), CLEAR_LINE the physical row
line_map[i] and reset its continuation flag. -/
def blankRows : LineBuf → Nat → Nat → LineBuf
  | self, _, 0 => self
  | self, i, Nat.succ s => blankRows (blankRow1 self i) (i + 1) s

/-- linebuf_insert_lines(num, y, bottom): saves the last num line_map
entries of the range to scratch, shifts the range down by num, clears
the continuation flag of the row after the inserted block, restores the
saved entries at [y, y+num), and blanks those rows. -/
def linebuf_insert_lines (self : LineBuf) (num y bottom : Nat) : LineBuf :=
  if self.ynum ≤ y ∨ bottom < y ∨ self.ynum ≤ bottom then self
  else
    let m := min (bottom + 1 - y) num
    if 0 < m then
      let scratch2 := copySeg 0 self.scratch self.line_map (bottom + 1 - m) (bottom + 1 - m) m
      let lm := shiftSegDown 0 m self.line_map bottom (bottom + 1 - (y + m))
      let cm := shiftSegDown false m self.continued_map bottom (bottom + 1 - (y + m))
      let cm2 := if y + m < self.ynum then cm.set (y + m) false else cm
      let lm2 := copySeg 0 lm scratch2 y (bottom + 1 - m) m
      blankRows { self with line_map := lm2, continued_map := cm2, scratch := scratch2 } y m
    else self

/-- linebuf_delete_lines(num, y, bottom): saves line_map[y, y+num) to
scratch, slides [y+num, ...] up by num (the C loop guard also stops at
ynum - num), clears the continuation flag of the new top, restores the
saved entries at the bottom of the range, and blanks those rows. -/
def linebuf_delete_lines (self : LineBuf) (num y bottom : Nat) : LineBuf :=
  let m := min (bottom + 1 - y) num
  if self.ynum ≤ y ∨ bottom < y ∨ self.ynum ≤ bottom ∨ m < 1 then self
  else
    let scratch2 := copySeg 0 self.scratch self.line_map y y m
    let lm := shiftSegUp 0 m self.line_map y (min (bottom + 1) (self.ynum - m) - y)
    let cm := shiftSegUp false m self.continued_map y (min (bottom + 1) (self.ynum - m) - y)
    let cm2 := cm.set y false
    let lm2 := copySeg 0 lm scratch2 (bottom + 1 - m) y m
    blankRows { self with line_map := lm2, continued_map := cm2, scratch := scratch2 }
      (bottom + 1 - m) m

/-- The slice of a flat cell array holding physical row slot p
(INIT_LINE binds the five array pointers at offset p * xnum). -/
def sliceN (l : List Nat) (start len : Nat) : List Nat := (l.drop start).take len

/-- COPY_LINE from the physical slot p of the grid into a Line.
Modelled from the spec: element-wise copy of the five column arrays. -/
def copy_phys_line (self : LineBuf) (p : Nat) (dest : Line) : Line :=
  { dest with
    xnum := self.xnum
    chars := sliceN self.chars (p * self.xnum) self.xnum
    fg_colors := sliceN self.fg_colors (p * self.xnum) self.xnum
    bg_colors := sliceN self.bg_colors (p * self.xnum) self.xnum
    decoration_fg := sliceN self.decoration_fg (p * self.xnum) self.xnum
    combining_chars := sliceN self.combining_chars (p * self.xnum) self.xnum }

/-- copy_line_to(y, dest): note the C function performs no bounds check
on y; it unconditionally reads continued_map[y] and line_map[y] and
copies the row, so the model never returns none (an out-of-range y
reads out of bounds in C; the model reads the getD defaults). -/
def copy_line_to (self : LineBuf) (y : Nat) (dest : Line) : Option Line :=
  some { copy_phys_line self (self.line_map.getD y 0) dest with
         ynum := y
         continued := self.continued_map.getD y false }

/-- create_line_copy(y): checks y against ynum (Out of bounds error,
modelled as none), then allocates a fresh Line and copies the row via
COPY_LINE, carrying the continuation flag. -/
def create_line_copy (self : LineBuf) (y : Nat) : Option Line :=
  if self.ynum ≤ y then none
  else
    some { copy_phys_line self (self.line_map.getD y 0)
             { xnum := self.xnum, ynum := 0, continued := false, chars := [],
               fg_colors := [], bg_colors := [], decoration_fg := [], combining_chars := [] } with
           ynum := y
           continued := self.continued_map.getD y false }

/-- The continuation flag as_ansi consults for row i: the next row's
flag, except for the last row, which uses its own. -/
def consulted_flag (self : LineBuf) (i : Nat) : Bool :=
  if i < self.ynum - 1 then self.continued_map.getD (i + 1) false
  else self.continued_map.getD i false

/-- The Line value as_ansi passes to line_as_ansi for logical row i:
the five arrays bound at physical slot line_map[i] (INIT_LINE), with
the consulted continuation flag (the local ynum field is never set). -/
def ansi_line (self : LineBuf) (i : Nat) : Line :=
  { xnum := self.xnum
    ynum := 0
    continued := consulted_flag self i
    chars := sliceN self.chars (self.line_map.getD i 0 * self.xnum) self.xnum
    fg_colors := sliceN self.fg_colors (self.line_map.getD i 0 * self.xnum) self.xnum
    bg_colors := sliceN self.bg_colors (self.line_map.getD i 0 * self.xnum) self.xnum
    decoration_fg := sliceN self.decoration_fg (self.line_map.getD i 0 * self.xnum) self.xnum
    combining_chars := sliceN self.combining_chars (self.line_map.getD i 0 * self.xnum) self.xnum }

/-- One chunk of as_ansi output.  The rendering function line_as_ansi
lives in line.c, which is not part of the sources; it is modelled as an
arbitrary function Line -> list of codepoints whose output fits the
5120-codepoint buffer (a hypothesis of the theorems).  After rendering,
as_ansi appends a hard newline only when the consulted flag is false
and the rendered length is below 5119. -/
def ansi_chunk (render : Line → List Nat) (self : LineBuf) (i : Nat) : List Nat :=
  let t := render (ansi_line self i)
  if consulted_flag self i = false ∧ t.length < 5119 then t ++ [10] else t

/-- as_ansi: renders each logical row in order and calls the callback
once per produced chunk; modelled as the list of chunks in call order
(the model ignores the early abort when the callback itself fails). -/
def as_ansi_chunks (render : Line → List Nat) (self : LineBuf) : List (List Nat) :=
  (List.range self.ynum).map (ansi_chunk render self)

/-- One row of the empty-buffer scan of linebuf_rewrap: true if some
cell's character code (low CHAR_MASK bits) differs from a space. -/
def row_has_content (self : LineBuf) (y : Nat) : Bool :=
  (List.range self.xnum).any
    (fun i => ((self.chars.getD (self.xnum * y + i) 0) &&& CHAR_MASK) ≠ 32)

/-- The scan loop of linebuf_rewrap: starting from physical row
ynum - 1 and walking up, the index of the first row found with content;
0 if the scan reaches row 0 (whether or not row 0 has content - this is
exactly the C loop's behaviour). -/
def scanFirst (self : LineBuf) : Nat → Nat
  | 0 => 0
  | Nat.succ y => if row_has_content self (Nat.succ y) then Nat.succ y else scanFirst self y

/-- memcpy of the first n entries of src over dst (the arrays on the
fast path all have exactly n entries). -/
def memcpyN {α : Type} (dst src : List α) (n : Nat) : List α := src.take n ++ dst.drop n

/-- linebuf_rewrap together with the Python-level wrapper, which
initializes the returned cursor row to -1.  Fast path: identical
dimensions, bulk copy of line_map, continued_map and the whole cell
arena, cursor left at the wrapper's -1.  Otherwise scan for the last
physical row with content; if the scan index is 0 the function returns
cursor 0 with the destination untouched; otherwise it calls rewrap_inner
(rewrap.h, not part of the sources - passed here as a parameter) with
first + 1 and returns the cursor row it computes. -/
def linebuf_rewrap (inner : LineBuf → LineBuf → Nat → LineBuf × Nat)
    (self other : LineBuf) : LineBuf × Int :=
  if other.xnum = self.xnum ∧ other.ynum = self.ynum then
    ({ other with
        line_map := memcpyN other.line_map self.line_map self.ynum
        continued_map := memcpyN other.continued_map self.continued_map self.ynum
        chars := memcpyN other.chars self.chars (self.xnum * self.ynum)
        fg_colors := memcpyN other.fg_colors self.fg_colors (self.xnum * self.ynum)
        bg_colors := memcpyN other.bg_colors self.bg_colors (self.xnum * self.ynum)
        decoration_fg := memcpyN other.decoration_fg self.decoration_fg (self.xnum * self.ynum)
        combining_chars :=
          memcpyN other.combining_chars self.combining_chars (self.xnum * self.ynum) }, -1)
  else
    let first := scanFirst self (self.ynum - 1)
    if first = 0 then (other, 0)
    else
      let res := inner self other (first + 1)
      (res.1, Int.ofNat res.2)

/-- The five allocations made by new, in order. -/
inductive CAlloc
  | cbuf | clmap | cscratch | ccmap | cline
deriving DecidableEq, Repr

/-- The sequence of deallocations the failure branch of new performs,
given which of the five allocations succeeded (PyMem_Free of a NULL
pointer frees nothing).  The branch runs, in order: PyErr_NoMemory;
PyMem_Free(buf); PyMem_Free(line_map); PyMem_Free(continued_map);
Py_CLEAR(line); then Py_CLEAR(self), which drops the object's only
reference and so runs dealloc: PyMem_Free(buf); PyMem_Free(line_map);
PyMem_Free(continued_map); PyMem_Free(scratch); Py_CLEAR(line) (the
line field is NULL by then, so it frees nothing).  The still-set buf,
line_map and continued_map pointers are passed to free a second time. -/
def newFailureFrees (okbuf oklmap okscratch okcmap okline : Bool) : List CAlloc :=
  (if okbuf then [CAlloc.cbuf] else []) ++
  (if oklmap then [CAlloc.clmap] else []) ++
  (if okcmap then [CAlloc.ccmap] else []) ++
  (if okline then [CAlloc.cline] else []) ++
  (if okbuf then [CAlloc.cbuf] else []) ++
  (if oklmap then [CAlloc.clmap] else []) ++
  (if okcmap then [CAlloc.ccmap] else []) ++
  (if okscratch then [CAlloc.cscratch] else [])

/-- The five per-line allocations of allocate_line_storage, in order. -/
inductive LAlloc
  | lchars | lfg | lbg | ldec | lcomb
deriving DecidableEq, Repr

/-- The deallocations the failure branch of allocate_line_storage
performs: each of the five column arrays is freed exactly once (and the
field nulled) before PyErr_NoMemory, regardless of which allocation
failed (freeing the NULL failed ones is a no-op). -/
def lineStorageFailureFrees (okchars okfg okbg okdec okcomb : Bool) : List LAlloc :=
  (if okchars then [LAlloc.lchars] else []) ++
  (if okfg then [LAlloc.lfg] else []) ++
  (if okbg then [LAlloc.lbg] else []) ++
  (if okdec then [LAlloc.ldec] else []) ++
  (if okcomb then [LAlloc.lcomb] else [])

/-- The net permutation-index map of linebuf_insert_lines on a valid
range: position j of the new line_map holds the old entry at
sigma_ins y m ylimit j (m the clamped count, ylimit = bottom + 1). -/
def sigma_ins (y m ylimit j : Nat) : Nat :=
  if y ≤ j ∧ j < y + m then ylimit - m + (j - y)
  else if y + m ≤ j ∧ j < ylimit then j - m
  else j

/-- The net permutation-index map of linebuf_delete_lines on a valid
range: position j of the new line_map holds the old entry at
sigma_del y m ylimit j. -/
def sigma_del (y m ylimit j : Nat) : Nat :=
  if y ≤ j ∧ j < ylimit - m then j + m
  else if ylimit - m ≤ j ∧ j < ylimit then y + (j - (ylimit - m))
  else j

/-- The net permutation-index map of linebuf_index on a valid range. -/
def sigma_up (top bottom j : Nat) : Nat :=
  if top ≤ j ∧ j < bottom then j + 1
  else if j = bottom then top
  else j

/-- The net permutation-index map of linebuf_reverse_index on a valid
range. -/
def sigma_down (top bottom j : Nat) : Nat :=
  if top < j ∧ j ≤ bottom then j - 1
  else if j = top then bottom
  else j

-- ---------------------------------------------------------------------
-- Concrete fixtures used by witnesses and counterexamples
-- ---------------------------------------------------------------------

/-- A 2-row, 2-column grid whose only non-space character (65) sits in
row 0; rows in identity order, no continuations. -/
def srcRow0 : LineBuf :=
  { xnum := 2, ynum := 2
    chars := [(1 <<< ATTRS_SHIFT) ||| 65, BLANK_CELL, BLANK_CELL, BLANK_CELL]
    fg_colors := [0, 0, 0, 0], bg_colors := [0, 0, 0, 0]
    decoration_fg := [0, 0, 0, 0], combining_chars := [0, 0, 0, 0]
    line_map := [0, 1], scratch := [0, 0], continued_map := [false, false] }

/-- A cleared 1-column, 4-row destination grid. -/
def dst14 : LineBuf :=
  { xnum := 1, ynum := 4
    chars := [BLANK_CELL, BLANK_CELL, BLANK_CELL, BLANK_CELL]
    fg_colors := [0, 0, 0, 0], bg_colors := [0, 0, 0, 0]
    decoration_fg := [0, 0, 0, 0], combining_chars := [0, 0, 0, 0]
    line_map := [0, 1, 2, 3], scratch := [0, 0, 0, 0]
    continued_map := [false, false, false, false] }

/-- A 2-row, 1-column grid where row 1 is marked as a continuation. -/
def lb21 : LineBuf :=
  { xnum := 1, ynum := 2
    chars := [BLANK_CELL, BLANK_CELL]
    fg_colors := [0, 0], bg_colors := [0, 0]
    decoration_fg := [0, 0], combining_chars := [0, 0]
    line_map := [0, 1], scratch := [0, 0], continued_map := [false, true] }

/-- A 3-row, 1-column grid where row 1 is marked as a continuation. -/
def lb31 : LineBuf :=
  { xnum := 1, ynum := 3
    chars := [BLANK_CELL, BLANK_CELL, BLANK_CELL]
    fg_colors := [0, 0, 0], bg_colors := [0, 0, 0]
    decoration_fg := [0, 0, 0], combining_chars := [0, 0, 0]
    line_map := [0, 1, 2], scratch := [0, 0, 0], continued_map := [false, true, false] }

/-- A 3-row, 1-column grid where row 2 is marked as a continuation. -/
def lb31b : LineBuf :=
  { xnum := 1, ynum := 3
    chars := [BLANK_CELL, BLANK_CELL, BLANK_CELL]
    fg_colors := [0, 0, 0], bg_colors := [0, 0, 0]
    decoration_fg := [0, 0, 0], combining_chars := [0, 0, 0]
    line_map := [0, 1, 2], scratch := [0, 0, 0], continued_map := [false, false, true] }

/-- A cleared 2-row, 2-column destination grid (same dimensions as
srcRow0), for the rewrap fast path. -/
def dst22 : LineBuf :=
  { xnum := 2, ynum := 2
    chars := [BLANK_CELL, BLANK_CELL, BLANK_CELL, BLANK_CELL]
    fg_colors := [0, 0, 0, 0], bg_colors := [0, 0, 0, 0]
    decoration_fg := [0, 0, 0, 0], combining_chars := [0, 0, 0, 0]
    line_map := [0, 1], scratch := [0, 0], continued_map := [false, false] }

/-- A minimal 1-row, 1-column grid. -/
def lbOne : LineBuf :=
  { xnum := 1, ynum := 1
    chars := [BLANK_CELL], fg_colors := [0], bg_colors := [0]
    decoration_fg := [0], combining_chars := [0]
    line_map := [0], scratch := [0], continued_map := [false] }

/-- An empty Line value, as a destination for copy_line_to. -/
def emptyLine : Line :=
  { xnum := 0, ynum := 0, continued := false, chars := [], fg_colors := []
    bg_colors := [], decoration_fg := [], combining_chars := [] }

/-- A rendering function producing exactly 5119 codepoints, within the
5120-codepoint buffer of as_ansi (line_as_ansi is external; the spec
bounds only the buffer, not the rendered length). -/
def renderBig : Line → List Nat := fun _ => List.replicate 5119 65

/-- A small bounded rendering function used by witnesses. -/
def renderSmall : Line → List Nat := fun l => l.chars.take 8

-- ---------------------------------------------------------------------
-- Lemmas about the loop helpers
-- ---------------------------------------------------------------------

theorem getD_set_self {α : Type} (l : List α) (i : Nat) (v d : α) (h : i < l.length) :
    (l.set i v).getD i d = v := by
  rw [List.getD_eq_getElem _ _ (by simpa using h)]
  simp

theorem getD_set_other {α : Type} (l : List α) (i j : Nat) (v d : α) (h : i ≠ j) :
    (l.set i v).getD j d = l.getD j d := by
  by_cases hj : j < l.length
  · rw [List.getD_eq_getElem _ _ (by simpa using hj), List.getD_eq_getElem _ _ hj]
    exact List.getElem_set_ne h _
  · rw [List.getD_eq_default _ _ (by simpa using Nat.le_of_not_lt hj),
      List.getD_eq_default _ _ (Nat.le_of_not_lt hj)]

@[simp] theorem shiftSegUp_length {α : Type} (d0 : α) (d : Nat) :
    ∀ (l : List α) (i s : Nat), (shiftSegUp d0 d l i s).length = l.length := by
  intro l i s
  induction s generalizing l i with
  | zero => rfl
  | succ s ih => simp [shiftSegUp, ih]

theorem shiftSegUp_getD {α : Type} (d0 : α) (d : Nat) (hd : 1 ≤ d) :
    ∀ (s : Nat) (l : List α) (i : Nat), i + s ≤ l.length →
      ∀ j, (shiftSegUp d0 d l i s).getD j d0 =
        if i ≤ j ∧ j < i + s then l.getD (j + d) d0 else l.getD j d0 := by
  intro s
  induction s with
  | zero =>
    intro l i _ j
    rw [if_neg (by omega : ¬(i ≤ j ∧ j < i + 0))]
    rfl
  | succ s ih =>
    intro l i hlen j
    have hi : i < l.length := by omega
    rw [shiftSegUp]
    rw [ih _ _ (by simp; omega) j]
    by_cases h1 : i + 1 ≤ j ∧ j < i + 1 + s
    · rw [if_pos h1, if_pos (by omega)]
      exact getD_set_other _ _ _ _ _ (by omega)
    · rw [if_neg h1]
      by_cases h2 : j = i
      · subst h2
        rw [if_pos (by omega)]
        exact getD_set_self _ _ _ _ hi
      · rw [if_neg (by omega)]
        exact getD_set_other _ _ _ _ _ (by omega)

@[simp] theorem shiftSegDown_length {α : Type} (d0 : α) (d : Nat) :
    ∀ (l : List α) (i s : Nat), (shiftSegDown d0 d l i s).length = l.length := by
  intro l i s
  induction s generalizing l i with
  | zero => rfl
  | succ s ih => simp [shiftSegDown, ih]

theorem shiftSegDown_getD {α : Type} (d0 : α) (d : Nat) (hd : 1 ≤ d) :
    ∀ (s : Nat) (l : List α) (i : Nat), s ≤ i → i < l.length →
      ∀ j, (shiftSegDown d0 d l i s).getD j d0 =
        if i - s < j ∧ j ≤ i then l.getD (j - d) d0 else l.getD j d0 := by
  intro s
  induction s with
  | zero =>
    intro l i _ _ j
    rw [if_neg (by omega : ¬(i - 0 < j ∧ j ≤ i))]
    rfl
  | succ s ih =>
    intro l i hs hi j
    rw [shiftSegDown]
    rw [ih _ _ (by omega) (by simp; omega) j]
    by_cases h1 : i - 1 - s < j ∧ j ≤ i - 1
    · rw [if_pos h1, if_pos (by omega)]
      exact getD_set_other _ _ _ _ _ (by omega)
    · rw [if_neg h1]
      by_cases h2 : j = i
      · subst h2
        rw [if_pos (by omega)]
        exact getD_set_self _ _ _ _ hi
      · rw [if_neg (by omega)]
        exact getD_set_other _ _ _ _ _ (by omega)

@[simp] theorem copySeg_length {α : Type} (d0 : α) :
    ∀ (dst src : List α) (i j s : Nat), (copySeg d0 dst src i j s).length = dst.length := by
  intro dst src i j s
  induction s generalizing dst i j with
  | zero => rfl
  | succ s ih => simp [copySeg, ih]

theorem copySeg_getD {α : Type} (d0 : α) (src : List α) :
    ∀ (s : Nat) (dst : List α) (i j : Nat), i + s ≤ dst.length →
      ∀ k, (copySeg d0 dst src i j s).getD k d0 =
        if i ≤ k ∧ k < i + s then src.getD (j + (k - i)) d0 else dst.getD k d0 := by
  intro s
  induction s with
  | zero =>
    intro dst i j _ k
    rw [if_neg (by omega : ¬(i ≤ k ∧ k < i + 0))]
    rfl
  | succ s ih =>
    intro dst i j hlen k
    have hi : i < dst.length := by omega
    rw [copySeg]
    rw [ih _ _ _ (by simp; omega) k]
    by_cases h1 : i + 1 ≤ k ∧ k < i + 1 + s
    · rw [if_pos h1, if_pos (by omega)]
      congr 1
      omega
    · rw [if_neg h1]
      by_cases h2 : k = i
      · subst h2
        rw [if_pos (by omega)]
        rw [getD_set_self dst k (src.getD j d0) d0 hi]
        congr 1
        omega
      · rw [if_neg (by omega)]
        exact getD_set_other _ _ _ _ _ (by omega)

@[simp] theorem setSeg_length {α : Type} (v : α) :
    ∀ (l : List α) (i s : Nat), (setSeg v l i s).length = l.length := by
  intro l i s
  induction s generalizing l i with
  | zero => rfl
  | succ s ih => simp [setSeg, ih]

theorem setSeg_getD_out {α : Type} (v d0 : α) :
    ∀ (s : Nat) (l : List α) (i k : Nat), (k < i ∨ i + s ≤ k) →
      (setSeg v l i s).getD k d0 = l.getD k d0 := by
  intro s
  induction s with
  | zero => intro l i k _; rfl
  | succ s ih =>
    intro l i k hk
    rw [setSeg, ih _ _ _ (by omega)]
    exact getD_set_other _ _ _ _ _ (by omega)

theorem setSeg_getD_in {α : Type} (v d0 : α) :
    ∀ (s : Nat) (l : List α) (i k : Nat), i + s ≤ l.length → i ≤ k → k < i + s →
      (setSeg v l i s).getD k d0 = v := by
  intro s
  induction s with
  | zero => intro l i k _ h1 h2; omega
  | succ s ih =>
    intro l i k hlen h1 h2
    rw [setSeg]
    by_cases hk : k = i
    · subst hk
      rw [setSeg_getD_out v d0 _ _ _ _ (by omega)]
      exact getD_set_self _ _ _ _ (by omega)
    · exact ih _ _ _ (by simp; omega) (by omega) (by omega)

@[simp] theorem identSeg_length :
    ∀ (l : List Nat) (i s : Nat), (identSeg l i s).length = l.length := by
  intro l i s
  induction s generalizing l i with
  | zero => rfl
  | succ s ih => simp [identSeg, ih]

theorem identSeg_getD :
    ∀ (s : Nat) (l : List Nat) (i k : Nat), i + s ≤ l.length →
      (identSeg l i s).getD k 0 = if i ≤ k ∧ k < i + s then k else l.getD k 0 := by
  intro s
  induction s with
  | zero =>
    intro l i k _
    rw [if_neg (by omega : ¬(i ≤ k ∧ k < i + 0))]
    rfl
  | succ s ih =>
    intro l i k hlen
    rw [identSeg, ih _ _ _ (by simp; omega)]
    by_cases h1 : i + 1 ≤ k ∧ k < i + 1 + s
    · rw [if_pos h1, if_pos (by omega)]
    · rw [if_neg h1]
      by_cases h2 : k = i
      · subst h2
        rw [if_pos (by omega)]
        exact getD_set_self _ _ _ _ (by omega)
      · rw [if_neg (by omega)]
        exact getD_set_other _ _ _ _ _ (by omega)

-- ---------------------------------------------------------------------
-- blankRows: what the final blanking loop touches and what it leaves
-- ---------------------------------------------------------------------

theorem blankRow1_fields (self : LineBuf) (i : Nat) :
    (blankRow1 self i).xnum = self.xnum ∧
    (blankRow1 self i).ynum = self.ynum ∧
    (blankRow1 self i).line_map = self.line_map ∧
    (blankRow1 self i).scratch = self.scratch :=
  ⟨rfl, rfl, rfl, rfl⟩

theorem blankRows_fields :
    ∀ (s : Nat) (self : LineBuf) (i : Nat),
      (blankRows self i s).xnum = self.xnum ∧
      (blankRows self i s).ynum = self.ynum ∧
      (blankRows self i s).line_map = self.line_map ∧
      (blankRows self i s).scratch = self.scratch := by
  intro s
  induction s with
  | zero => intro self i; exact ⟨rfl, rfl, rfl, rfl⟩
  | succ s ih =>
    intro self i
    rw [blankRows]
    exact ih _ _

theorem blankRows_cm_length :
    ∀ (s : Nat) (self : LineBuf) (i : Nat),
      (blankRows self i s).continued_map.length = self.continued_map.length := by
  intro s
  induction s with
  | zero => intro self i; rfl
  | succ s ih =>
    intro self i
    rw [blankRows, ih]
    simp [blankRow1]

theorem blankRows_cm_out :
    ∀ (s : Nat) (self : LineBuf) (i j : Nat), (j < i ∨ i + s ≤ j) →
      (blankRows self i s).continued_map.getD j false = self.continued_map.getD j false := by
  intro s
  induction s with
  | zero => intro self i j _; rfl
  | succ s ih =>
    intro self i j hj
    rw [blankRows, ih _ _ _ (by omega)]
    show (self.continued_map.set i false).getD j false = _
    exact getD_set_other _ _ _ _ _ (by omega)

theorem blankRows_cm_in :
    ∀ (s : Nat) (self : LineBuf) (i j : Nat), i ≤ j → j < i + s →
      j < self.continued_map.length →
      (blankRows self i s).continued_map.getD j false = false := by
  intro s
  induction s with
  | zero => intro self i j h1 h2 _; omega
  | succ s ih =>
    intro self i j h1 h2 hlen
    rw [blankRows]
    by_cases hj : j = i
    · subst hj
      rw [blankRows_cm_out _ _ _ _ (by omega)]
      show (self.continued_map.set j false).getD j false = false
      exact getD_set_self _ _ _ _ hlen
    · exact ih _ _ _ (by omega) (by omega) (by simp [blankRow1]; omega)

theorem blankRows_cells_out :
    ∀ (s : Nat) (self : LineBuf) (i c : Nat),
      (∀ k, i ≤ k → k < i + s →
        ¬(self.line_map.getD k 0 * self.xnum ≤ c ∧
          c < self.line_map.getD k 0 * self.xnum + self.xnum)) →
      (blankRows self i s).chars.getD c 0 = self.chars.getD c 0 ∧
      (blankRows self i s).fg_colors.getD c 0 = self.fg_colors.getD c 0 ∧
      (blankRows self i s).bg_colors.getD c 0 = self.bg_colors.getD c 0 ∧
      (blankRows self i s).decoration_fg.getD c 0 = self.decoration_fg.getD c 0 ∧
      (blankRows self i s).combining_chars.getD c 0 = self.combining_chars.getD c 0 := by
  intro s
  induction s with
  | zero => intro self i c _; exact ⟨rfl, rfl, rfl, rfl, rfl⟩
  | succ s ih =>
    intro self i c hc
    rw [blankRows]
    have hout := hc i (Nat.le_refl i) (by omega)
    have hr : c < self.line_map.getD i 0 * self.xnum ∨
        self.line_map.getD i 0 * self.xnum + self.xnum ≤ c := by omega
    have step := ih (blankRow1 self i) (i + 1) c (by
      intro k hk1 hk2
      show ¬(self.line_map.getD k 0 * self.xnum ≤ c ∧
        c < self.line_map.getD k 0 * self.xnum + self.xnum)
      exact hc k (by omega) (by omega))
    obtain ⟨e1, e2, e3, e4, e5⟩ := step
    rw [e1, e2, e3, e4, e5]
    show (setSeg BLANK_CELL self.chars _ self.xnum).getD c 0 = self.chars.getD c 0 ∧
      (setSeg 0 self.fg_colors _ self.xnum).getD c 0 = self.fg_colors.getD c 0 ∧
      (setSeg 0 self.bg_colors _ self.xnum).getD c 0 = self.bg_colors.getD c 0 ∧
      (setSeg 0 self.decoration_fg _ self.xnum).getD c 0 = self.decoration_fg.getD c 0 ∧
      (setSeg 0 self.combining_chars _ self.xnum).getD c 0 = self.combining_chars.getD c 0
    exact ⟨setSeg_getD_out _ _ _ _ _ _ (by omega), setSeg_getD_out _ _ _ _ _ _ (by omega),
      setSeg_getD_out _ _ _ _ _ _ (by omega), setSeg_getD_out _ _ _ _ _ _ (by omega),
      setSeg_getD_out _ _ _ _ _ _ (by omega)⟩

theorem blankRows_cells_length :
    ∀ (s : Nat) (self : LineBuf) (i : Nat),
      (blankRows self i s).chars.length = self.chars.length ∧
      (blankRows self i s).fg_colors.length = self.fg_colors.length ∧
      (blankRows self i s).bg_colors.length = self.bg_colors.length ∧
      (blankRows self i s).decoration_fg.length = self.decoration_fg.length ∧
      (blankRows self i s).combining_chars.length = self.combining_chars.length := by
  intro s
  induction s with
  | zero => intro self i; exact ⟨rfl, rfl, rfl, rfl, rfl⟩
  | succ s ih =>
    intro self i
    rw [blankRows]
    obtain ⟨e1, e2, e3, e4, e5⟩ := ih (blankRow1 self i) (i + 1)
    rw [e1, e2, e3, e4, e5]
    simp [blankRow1]

-- ---------------------------------------------------------------------
-- linebuf_index / linebuf_reverse_index: pointwise characterisation
-- ---------------------------------------------------------------------

theorem linebuf_index_lm_getD (self : LineBuf) (top bottom : Nat)
    (h1 : top < bottom) (h2 : bottom < self.ynum)
    (hlen : self.line_map.length = self.ynum) (j : Nat) :
    (linebuf_index self top bottom).line_map.getD j 0 =
      self.line_map.getD (sigma_up top bottom j) 0 := by
  have hcond : ¬(self.ynum - 1 ≤ top ∨ self.ynum ≤ bottom ∨ bottom ≤ top) := by omega
  simp only [linebuf_index, if_neg hcond, sigma_up]
  by_cases hj : j = bottom
  · subst hj
    rw [getD_set_self _ _ _ _ (by simp [hlen]; omega)]
    rw [if_neg (by omega), if_pos rfl]
  · rw [getD_set_other _ _ _ _ _ (by omega)]
    rw [shiftSegUp_getD 0 1 (by omega) (bottom - top) self.line_map top (by omega) j]
    by_cases hmid : top ≤ j ∧ j < bottom
    · rw [if_pos (by omega : top ≤ j ∧ j < top + (bottom - top)), if_pos hmid]
    · rw [if_neg (by omega : ¬(top ≤ j ∧ j < top + (bottom - top))), if_neg hmid, if_neg hj]

theorem linebuf_index_cm_getD (self : LineBuf) (top bottom : Nat)
    (h1 : top < bottom) (h2 : bottom < self.ynum)
    (hlen : self.continued_map.length = self.ynum) (j : Nat) :
    (linebuf_index self top bottom).continued_map.getD j false =
      self.continued_map.getD (sigma_up top bottom j) false := by
  have hcond : ¬(self.ynum - 1 ≤ top ∨ self.ynum ≤ bottom ∨ bottom ≤ top) := by omega
  simp only [linebuf_index, if_neg hcond, sigma_up]
  by_cases hj : j = bottom
  · subst hj
    rw [getD_set_self _ _ _ _ (by simp [hlen]; omega)]
    rw [if_neg (by omega), if_pos rfl]
  · rw [getD_set_other _ _ _ _ _ (by omega)]
    rw [shiftSegUp_getD false 1 (by omega) (bottom - top) self.continued_map top (by omega) j]
    by_cases hmid : top ≤ j ∧ j < bottom
    · rw [if_pos (by omega : top ≤ j ∧ j < top + (bottom - top)), if_pos hmid]
    · rw [if_neg (by omega : ¬(top ≤ j ∧ j < top + (bottom - top))), if_neg hmid, if_neg hj]

theorem linebuf_reverse_index_lm_getD (self : LineBuf) (top bottom : Nat)
    (h1 : top < bottom) (h2 : bottom < self.ynum)
    (hlen : self.line_map.length = self.ynum) (j : Nat) :
    (linebuf_reverse_index self top bottom).line_map.getD j 0 =
      self.line_map.getD (sigma_down top bottom j) 0 := by
  have hcond : ¬(self.ynum - 1 ≤ top ∨ self.ynum ≤ bottom ∨ bottom ≤ top) := by omega
  simp only [linebuf_reverse_index, if_neg hcond, sigma_down]
  by_cases hj : j = top
  · subst hj
    rw [getD_set_self _ _ _ _ (by simp [hlen]; omega)]
    rw [if_neg (by omega), if_pos rfl]
  · rw [getD_set_other _ _ _ _ _ (by omega)]
    rw [shiftSegDown_getD 0 1 (by omega) (bottom - top) self.line_map bottom (by omega)
      (by omega) j]
    by_cases hmid : top < j ∧ j ≤ bottom
    · rw [if_pos (by omega : bottom - (bottom - top) < j ∧ j ≤ bottom), if_pos hmid]
    · rw [if_neg (by omega : ¬(bottom - (bottom - top) < j ∧ j ≤ bottom)), if_neg hmid,
        if_neg hj]

theorem linebuf_reverse_index_cm_getD (self : LineBuf) (top bottom : Nat)
    (h1 : top < bottom) (h2 : bottom < self.ynum)
    (hlen : self.continued_map.length = self.ynum) (j : Nat) :
    (linebuf_reverse_index self top bottom).continued_map.getD j false =
      self.continued_map.getD (sigma_down top bottom j) false := by
  have hcond : ¬(self.ynum - 1 ≤ top ∨ self.ynum ≤ bottom ∨ bottom ≤ top) := by omega
  simp only [linebuf_reverse_index, if_neg hcond, sigma_down]
  by_cases hj : j = top
  · subst hj
    rw [getD_set_self _ _ _ _ (by simp [hlen]; omega)]
    rw [if_neg (by omega), if_pos rfl]
  · rw [getD_set_other _ _ _ _ _ (by omega)]
    rw [shiftSegDown_getD false 1 (by omega) (bottom - top) self.continued_map bottom
      (by omega) (by omega) j]
    by_cases hmid : top < j ∧ j ≤ bottom
    · rw [if_pos (by omega : bottom - (bottom - top) < j ∧ j ≤ bottom), if_pos hmid]
    · rw [if_neg (by omega : ¬(bottom - (bottom - top) < j ∧ j ≤ bottom)), if_neg hmid,
        if_neg hj]

theorem WF_linebuf_index (self : LineBuf) (top bottom : Nat) (hWF : WF self) :
    WF (linebuf_index self top bottom) ∧
    (linebuf_index self top bottom).xnum = self.xnum ∧
    (linebuf_index self top bottom).ynum = self.ynum := by
  obtain ⟨w1, w2, w3, w4, w5, w6, w7, w8⟩ := hWF
  unfold linebuf_index
  split
  · exact ⟨⟨w1, w2, w3, w4, w5, w6, w7, w8⟩, rfl, rfl⟩
  · refine ⟨⟨?_, w2, ?_, w4, w5, w6, w7, w8⟩, rfl, rfl⟩ <;> simp [w1, w3]

theorem WF_linebuf_reverse_index (self : LineBuf) (top bottom : Nat) (hWF : WF self) :
    WF (linebuf_reverse_index self top bottom) ∧
    (linebuf_reverse_index self top bottom).xnum = self.xnum ∧
    (linebuf_reverse_index self top bottom).ynum = self.ynum := by
  obtain ⟨w1, w2, w3, w4, w5, w6, w7, w8⟩ := hWF
  unfold linebuf_reverse_index
  split
  · exact ⟨⟨w1, w2, w3, w4, w5, w6, w7, w8⟩, rfl, rfl⟩
  · refine ⟨⟨?_, w2, ?_, w4, w5, w6, w7, w8⟩, rfl, rfl⟩ <;> simp [w1, w3]

-- ---------------------------------------------------------------------
-- linebuf_insert_lines / linebuf_delete_lines: pointwise line_map form
-- ---------------------------------------------------------------------

theorem linebuf_insert_lines_lm_getD (self : LineBuf) (num y bottom : Nat)
    (hlm : self.line_map.length = self.ynum) (hsc : self.scratch.length = self.ynum)
    (hy : y ≤ bottom) (hb : bottom < self.ynum) (j : Nat) :
    (linebuf_insert_lines self num y bottom).line_map.getD j 0 =
      self.line_map.getD (sigma_ins y (min (bottom + 1 - y) num) (bottom + 1) j) 0 := by
  have hcond : ¬(self.ynum ≤ y ∨ bottom < y ∨ self.ynum ≤ bottom) := by omega
  rcases Nat.eq_zero_or_pos (min (bottom + 1 - y) num) with hm | hm
  · simp only [linebuf_insert_lines, if_neg hcond, hm, if_neg (by omega : ¬(0 < 0))]
    simp only [sigma_ins, hm]
    split_ifs with hA hB
    · omega
    · simp
    · rfl
  · simp only [linebuf_insert_lines, if_neg hcond, if_pos hm]
    rw [(blankRows_fields _ _ _).2.2.1]
    show (copySeg 0
        (shiftSegDown 0 (min (bottom + 1 - y) num) self.line_map bottom
          (bottom + 1 - (y + min (bottom + 1 - y) num)))
        (copySeg 0 self.scratch self.line_map (bottom + 1 - min (bottom + 1 - y) num)
          (bottom + 1 - min (bottom + 1 - y) num) (min (bottom + 1 - y) num))
        y (bottom + 1 - min (bottom + 1 - y) num) (min (bottom + 1 - y) num)).getD j 0 = _
    have hmle : min (bottom + 1 - y) num ≤ bottom + 1 - y := Nat.min_le_left _ _
    rw [copySeg_getD _ _ _ _ _ _ (by simp [hlm]; omega) j]
    by_cases hin : y ≤ j ∧ j < y + min (bottom + 1 - y) num
    · rw [if_pos hin]
      rw [copySeg_getD _ _ _ _ _ _ (by rw [hsc]; omega) _]
      rw [if_pos (by omega)]
      simp only [sigma_ins, if_pos hin]
      congr 1
      omega
    · rw [if_neg hin]
      rw [shiftSegDown_getD _ _ (by omega) _ _ _ (by omega) (by omega) j]
      by_cases hmid : y + min (bottom + 1 - y) num ≤ j ∧ j < bottom + 1
      · rw [if_pos (by omega)]
        simp only [sigma_ins, if_neg hin, if_pos hmid]
      · rw [if_neg (by omega)]
        simp only [sigma_ins, if_neg hin, if_neg hmid]

theorem linebuf_delete_lines_lm_getD (self : LineBuf) (num y bottom : Nat)
    (hlm : self.line_map.length = self.ynum) (hsc : self.scratch.length = self.ynum)
    (hy : y ≤ bottom) (hb : bottom < self.ynum)
    (hm : 1 ≤ min (bottom + 1 - y) num) (j : Nat) :
    (linebuf_delete_lines self num y bottom).line_map.getD j 0 =
      self.line_map.getD (sigma_del y (min (bottom + 1 - y) num) (bottom + 1) j) 0 := by
  have hcond : ¬(self.ynum ≤ y ∨ bottom < y ∨ self.ynum ≤ bottom ∨
      min (bottom + 1 - y) num < 1) := by omega
  simp only [linebuf_delete_lines, if_neg hcond]
  rw [(blankRows_fields _ _ _).2.2.1]
  show (copySeg 0
      (shiftSegUp 0 (min (bottom + 1 - y) num) self.line_map y
        (min (bottom + 1) (self.ynum - min (bottom + 1 - y) num) - y))
      (copySeg 0 self.scratch self.line_map y y (min (bottom + 1 - y) num))
      (bottom + 1 - min (bottom + 1 - y) num) y (min (bottom + 1 - y) num)).getD j 0 = _
  have hmle : min (bottom + 1 - y) num ≤ bottom + 1 - y := Nat.min_le_left _ _
  rw [copySeg_getD _ _ _ _ _ _ (by simp [hlm]; omega) j]
  by_cases hin : bottom + 1 - min (bottom + 1 - y) num ≤ j ∧
      j < bottom + 1 - min (bottom + 1 - y) num + min (bottom + 1 - y) num
  · rw [if_pos hin]
    rw [copySeg_getD _ _ _ _ _ _ (by rw [hsc]; omega) _]
    rw [if_pos (by omega)]
    simp only [sigma_del]
    rw [if_neg (by omega), if_pos (by omega)]
    congr 1
    omega
  · rw [if_neg hin]
    rw [shiftSegUp_getD _ _ (by omega) _ _ _ (by omega) j]
    by_cases hmid : y ≤ j ∧ j < bottom + 1 - min (bottom + 1 - y) num
    · rw [if_pos (by omega)]
      simp only [sigma_del, if_pos hmid]
    · rw [if_neg (by omega)]
      simp only [sigma_del]
      rw [if_neg hmid, if_neg (by omega)]

theorem blankRows_xnum (s : Nat) (self : LineBuf) (i : Nat) :
    (blankRows self i s).xnum = self.xnum := (blankRows_fields s self i).1

theorem blankRows_ynum (s : Nat) (self : LineBuf) (i : Nat) :
    (blankRows self i s).ynum = self.ynum := (blankRows_fields s self i).2.1

theorem blankRows_lm (s : Nat) (self : LineBuf) (i : Nat) :
    (blankRows self i s).line_map = self.line_map := (blankRows_fields s self i).2.2.1

theorem blankRows_scr (s : Nat) (self : LineBuf) (i : Nat) :
    (blankRows self i s).scratch = self.scratch := (blankRows_fields s self i).2.2.2

theorem blankRows_chars_length (s : Nat) (self : LineBuf) (i : Nat) :
    (blankRows self i s).chars.length = self.chars.length := (blankRows_cells_length s self i).1

theorem blankRows_fg_length (s : Nat) (self : LineBuf) (i : Nat) :
    (blankRows self i s).fg_colors.length = self.fg_colors.length :=
  (blankRows_cells_length s self i).2.1

theorem blankRows_bg_length (s : Nat) (self : LineBuf) (i : Nat) :
    (blankRows self i s).bg_colors.length = self.bg_colors.length :=
  (blankRows_cells_length s self i).2.2.1

theorem blankRows_dec_length (s : Nat) (self : LineBuf) (i : Nat) :
    (blankRows self i s).decoration_fg.length = self.decoration_fg.length :=
  (blankRows_cells_length s self i).2.2.2.1

theorem blankRows_comb_length (s : Nat) (self : LineBuf) (i : Nat) :
    (blankRows self i s).combining_chars.length = self.combining_chars.length :=
  (blankRows_cells_length s self i).2.2.2.2

theorem WF_linebuf_insert_lines (self : LineBuf) (num y bottom : Nat) (hWF : WF self) :
    WF (linebuf_insert_lines self num y bottom) ∧
    (linebuf_insert_lines self num y bottom).xnum = self.xnum ∧
    (linebuf_insert_lines self num y bottom).ynum = self.ynum := by
  obtain ⟨w1, w2, w3, w4, w5, w6, w7, w8⟩ := hWF
  simp only [linebuf_insert_lines]
  split
  · exact ⟨⟨w1, w2, w3, w4, w5, w6, w7, w8⟩, rfl, rfl⟩
  split
  · refine ⟨⟨?_, ?_, ?_, ?_, ?_, ?_, ?_, ?_⟩, ?_, ?_⟩ <;>
      simp only [WF, blankRows_xnum, blankRows_ynum, blankRows_lm, blankRows_scr,
        blankRows_cm_length, blankRows_chars_length, blankRows_fg_length, blankRows_bg_length,
        blankRows_dec_length, blankRows_comb_length] <;>
      (try split) <;>
      simp [w1, w2, w3, w4, w5, w6, w7, w8]
  · exact ⟨⟨w1, w2, w3, w4, w5, w6, w7, w8⟩, rfl, rfl⟩

theorem WF_linebuf_delete_lines (self : LineBuf) (num y bottom : Nat) (hWF : WF self) :
    WF (linebuf_delete_lines self num y bottom) ∧
    (linebuf_delete_lines self num y bottom).xnum = self.xnum ∧
    (linebuf_delete_lines self num y bottom).ynum = self.ynum := by
  obtain ⟨w1, w2, w3, w4, w5, w6, w7, w8⟩ := hWF
  simp only [linebuf_delete_lines]
  split
  · exact ⟨⟨w1, w2, w3, w4, w5, w6, w7, w8⟩, rfl, rfl⟩
  · refine ⟨⟨?_, ?_, ?_, ?_, ?_, ?_, ?_, ?_⟩, ?_, ?_⟩ <;>
      simp only [WF, blankRows_xnum, blankRows_ynum, blankRows_lm, blankRows_scr,
        blankRows_cm_length, blankRows_chars_length, blankRows_fg_length, blankRows_bg_length,
        blankRows_dec_length, blankRows_comb_length] <;>
      simp [w1, w2, w3, w4, w5, w6, w7, w8]

-- ---------------------------------------------------------------------
-- Permutation machinery
-- ---------------------------------------------------------------------

theorem perm_of_sigma (old nw : List Nat) (f : Nat → Nat) (n : Nat)
    (hol : old.length = n) (hnl : nw.length = n)
    (hlt : ∀ j, j < n → f j < n)
    (hinj : ∀ j1, j1 < n → ∀ j2, j2 < n → f j1 = f j2 → j1 = j2)
    (hpt : ∀ j, j < n → nw.getD j 0 = old.getD (f j) 0) :
    nw.Perm old := by
  have hmapinj : ((List.range n).map f).Nodup := by
    refine List.Nodup.map_on ?_ (List.nodup_range n)
    intro a ha b hb hab
    exact hinj a (List.mem_range.mp ha) b (List.mem_range.mp hb) hab
  have hsub : ((List.range n).map f) ⊆ List.range n := by
    intro a ha
    obtain ⟨b, hb, rfl⟩ := List.mem_map.mp ha
    exact List.mem_range.mpr (hlt b (List.mem_range.mp hb))
  have hperm : ((List.range n).map f).Perm (List.range n) :=
    (List.subperm_of_subset hmapinj hsub).perm_of_length_le (by simp)
  have hmap2 := hperm.map (fun j => old.getD j 0)
  have e1 : (((List.range n).map f).map (fun j => old.getD j 0)) = nw := by
    apply List.ext_getElem
    · simp [hnl]
    · intro i h1 h2
      have hin : i < n := by simpa [hnl] using h2
      simp only [List.getElem_map, List.getElem_range]
      rw [← List.getD_eq_getElem nw 0 h2]
      exact (hpt i hin).symm
  have e2 : ((List.range n).map (fun j => old.getD j 0)) = old := by
    apply List.ext_getElem
    · simp [hol]
    · intro i h1 h2
      simp only [List.getElem_map, List.getElem_range]
      exact List.getD_eq_getElem old 0 h2
  rw [e1, e2] at hmap2
  exact hmap2

theorem sigma_up_lt (top bottom n : Nat) (h1 : top < bottom) (h2 : bottom < n) :
    ∀ j, j < n → sigma_up top bottom j < n := by
  intro j hj
  simp only [sigma_up]
  split_ifs <;> omega

theorem sigma_up_inj (top bottom n : Nat) (h1 : top < bottom) (h2 : bottom < n) :
    ∀ j1, j1 < n → ∀ j2, j2 < n → sigma_up top bottom j1 = sigma_up top bottom j2 → j1 = j2 := by
  intro j1 hj1 j2 hj2
  simp only [sigma_up]
  split_ifs <;> omega

theorem sigma_down_lt (top bottom n : Nat) (h1 : top < bottom) (h2 : bottom < n) :
    ∀ j, j < n → sigma_down top bottom j < n := by
  intro j hj
  simp only [sigma_down]
  split_ifs <;> omega

theorem sigma_down_inj (top bottom n : Nat) (h1 : top < bottom) (h2 : bottom < n) :
    ∀ j1, j1 < n → ∀ j2, j2 < n →
      sigma_down top bottom j1 = sigma_down top bottom j2 → j1 = j2 := by
  intro j1 hj1 j2 hj2
  simp only [sigma_down]
  split_ifs <;> omega

theorem sigma_ins_lt (y m bottom n : Nat) (hy : y ≤ bottom) (hb : bottom < n)
    (hm : m ≤ bottom + 1 - y) :
    ∀ j, j < n → sigma_ins y m (bottom + 1) j < n := by
  intro j hj
  simp only [sigma_ins]
  split_ifs <;> omega

theorem sigma_ins_inj (y m bottom n : Nat) (hy : y ≤ bottom) (hb : bottom < n)
    (hm : m ≤ bottom + 1 - y) :
    ∀ j1, j1 < n → ∀ j2, j2 < n →
      sigma_ins y m (bottom + 1) j1 = sigma_ins y m (bottom + 1) j2 → j1 = j2 := by
  intro j1 hj1 j2 hj2
  simp only [sigma_ins]
  split_ifs <;> omega

theorem sigma_del_lt (y m bottom n : Nat) (hy : y ≤ bottom) (hb : bottom < n)
    (hm : m ≤ bottom + 1 - y) :
    ∀ j, j < n → sigma_del y m (bottom + 1) j < n := by
  intro j hj
  simp only [sigma_del]
  split_ifs <;> omega

theorem sigma_del_inj (y m bottom n : Nat) (hy : y ≤ bottom) (hb : bottom < n)
    (hm : m ≤ bottom + 1 - y) :
    ∀ j1, j1 < n → ∀ j2, j2 < n →
      sigma_del y m (bottom + 1) j1 = sigma_del y m (bottom + 1) j2 → j1 = j2 := by
  intro j1 hj1 j2 hj2
  simp only [sigma_del]
  split_ifs <;> omega

theorem sigma_ins_del_comp (y m bottom : Nat) (hym : y + m ≤ bottom + 1) (j : Nat) :
    sigma_ins y m (bottom + 1) (sigma_del y m (bottom + 1) j) = j := by
  simp only [sigma_ins, sigma_del]
  split_ifs <;> omega

theorem identSeg_eq_range (l : List Nat) (n : Nat) (hl : l.length = n) :
    identSeg l 0 n = List.range n := by
  apply List.ext_getElem
  · simp [hl]
  · intro i h1 h2
    have hin : i < n := by simpa using h2
    rw [← List.getD_eq_getElem _ 0 h1, identSeg_getD n l 0 i (by omega)]
    rw [if_pos (by omega)]
    simp

-- ---------------------------------------------------------------------
-- C9: the indirection array stays a bijection
-- ---------------------------------------------------------------------

/-- C9: the indirection array is a bijection over [0, rows): a freshly
constructed grid has a permutation line_map, and clear, scrollUp
(linebuf_index), scrollDown (linebuf_reverse_index), insertRows and
deleteRows each map a grid whose line_map is a permutation of
[0, rows) to a grid whose line_map is again such a permutation. -/
theorem C9_line_map_bijection :
    (∀ r c lb, linebuf_new r c = some lb → lb.line_map.Perm (List.range lb.ynum)) ∧
    (∀ lb ch, lb.line_map.length = lb.ynum →
      (linebuf_clear lb ch).line_map.Perm (List.range lb.ynum)) ∧
    (∀ lb top bottom, WF lb → lb.line_map.Perm (List.range lb.ynum) →
      (linebuf_index lb top bottom).line_map.Perm (List.range lb.ynum)) ∧
    (∀ lb top bottom, WF lb → lb.line_map.Perm (List.range lb.ynum) →
      (linebuf_reverse_index lb top bottom).line_map.Perm (List.range lb.ynum)) ∧
    (∀ lb num y bottom, WF lb → lb.line_map.Perm (List.range lb.ynum) →
      (linebuf_insert_lines lb num y bottom).line_map.Perm (List.range lb.ynum)) ∧
    (∀ lb num y bottom, WF lb → lb.line_map.Perm (List.range lb.ynum) →
      (linebuf_delete_lines lb num y bottom).line_map.Perm (List.range lb.ynum)) := by
  refine ⟨?_, ?_, ?_, ?_, ?_, ?_⟩
  · intro r c lb hnew
    simp only [linebuf_new] at hnew
    split at hnew
    · cases hnew
    split at hnew
    · cases hnew
    cases hnew
    show (identSeg (List.replicate r 0) 0 r).Perm (List.range r)
    rw [identSeg_eq_range _ _ (by simp)]
  · intro lb ch hlen
    show (identSeg lb.line_map 0 lb.ynum).Perm (List.range lb.ynum)
    rw [identSeg_eq_range _ _ hlen]
  · intro lb top bottom hWF hperm
    by_cases hc : lb.ynum - 1 ≤ top ∨ lb.ynum ≤ bottom ∨ bottom ≤ top
    · have hnoop : linebuf_index lb top bottom = lb := by
        simp only [linebuf_index]
        rw [if_pos hc]
      rw [hnoop]; exact hperm
    · have h1 : top < bottom := by omega
      have h2 : bottom < lb.ynum := by omega
      have hWFr := WF_linebuf_index lb top bottom hWF
      have hnl : (linebuf_index lb top bottom).line_map.length = lb.ynum := by
        rw [hWFr.1.1, hWFr.2.2]
      exact (perm_of_sigma lb.line_map _ (sigma_up top bottom) lb.ynum hWF.1 hnl
        (sigma_up_lt _ _ _ h1 h2) (sigma_up_inj _ _ _ h1 h2)
        (fun j _ => linebuf_index_lm_getD lb top bottom h1 h2 hWF.1 j)).trans hperm
  · intro lb top bottom hWF hperm
    by_cases hc : lb.ynum - 1 ≤ top ∨ lb.ynum ≤ bottom ∨ bottom ≤ top
    · have hnoop : linebuf_reverse_index lb top bottom = lb := by
        simp only [linebuf_reverse_index]
        rw [if_pos hc]
      rw [hnoop]; exact hperm
    · have h1 : top < bottom := by omega
      have h2 : bottom < lb.ynum := by omega
      have hWFr := WF_linebuf_reverse_index lb top bottom hWF
      have hnl : (linebuf_reverse_index lb top bottom).line_map.length = lb.ynum := by
        rw [hWFr.1.1, hWFr.2.2]
      exact (perm_of_sigma lb.line_map _ (sigma_down top bottom) lb.ynum hWF.1 hnl
        (sigma_down_lt _ _ _ h1 h2) (sigma_down_inj _ _ _ h1 h2)
        (fun j _ => linebuf_reverse_index_lm_getD lb top bottom h1 h2 hWF.1 j)).trans hperm
  · intro lb num y bottom hWF hperm
    by_cases hc : lb.ynum ≤ y ∨ bottom < y ∨ lb.ynum ≤ bottom
    · have hnoop : linebuf_insert_lines lb num y bottom = lb := by
        simp only [linebuf_insert_lines]
        rw [if_pos hc]
      rw [hnoop]; exact hperm
    · have hy : y ≤ bottom := by omega
      have hb : bottom < lb.ynum := by omega
      have hWFr := WF_linebuf_insert_lines lb num y bottom hWF
      have hnl : (linebuf_insert_lines lb num y bottom).line_map.length = lb.ynum := by
        rw [hWFr.1.1, hWFr.2.2]
      exact (perm_of_sigma lb.line_map _
        (sigma_ins y (min (bottom + 1 - y) num) (bottom + 1)) lb.ynum hWF.1 hnl
        (sigma_ins_lt _ _ _ _ hy hb (Nat.min_le_left _ _))
        (sigma_ins_inj _ _ _ _ hy hb (Nat.min_le_left _ _))
        (fun j _ =>
          linebuf_insert_lines_lm_getD lb num y bottom hWF.1 hWF.2.1 hy hb j)).trans hperm
  · intro lb num y bottom hWF hperm
    by_cases hc : lb.ynum ≤ y ∨ bottom < y ∨ lb.ynum ≤ bottom ∨ min (bottom + 1 - y) num < 1
    · have hnoop : linebuf_delete_lines lb num y bottom = lb := by
        simp only [linebuf_delete_lines]
        rw [if_pos hc]
      rw [hnoop]; exact hperm
    · have hy : y ≤ bottom := by omega
      have hb : bottom < lb.ynum := by omega
      have hm : 1 ≤ min (bottom + 1 - y) num := by omega
      have hWFr := WF_linebuf_delete_lines lb num y bottom hWF
      have hnl : (linebuf_delete_lines lb num y bottom).line_map.length = lb.ynum := by
        rw [hWFr.1.1, hWFr.2.2]
      exact (perm_of_sigma lb.line_map _
        (sigma_del y (min (bottom + 1 - y) num) (bottom + 1)) lb.ynum hWF.1 hnl
        (sigma_del_lt _ _ _ _ hy hb (Nat.min_le_left _ _))
        (sigma_del_inj _ _ _ _ hy hb (Nat.min_le_left _ _))
        (fun j _ =>
          linebuf_delete_lines_lm_getD lb num y bottom hWF.1 hWF.2.1 hy hb hm j)).trans hperm

/-- Witness for C9 at concrete grids: the invariant theorem evaluated
on a 3-row buffer for construction, clear and all four operators. -/
theorem C9_line_map_bijection_witness :
    (linebuf_clear lb31 32).line_map.Perm (List.range lb31.ynum) ∧
    (linebuf_index lb31 0 2).line_map.Perm (List.range lb31.ynum) ∧
    (linebuf_reverse_index lb31 0 2).line_map.Perm (List.range lb31.ynum) ∧
    (linebuf_insert_lines lb31 1 0 2).line_map.Perm (List.range lb31.ynum) ∧
    (linebuf_delete_lines lb31 1 0 2).line_map.Perm (List.range lb31.ynum) :=
  ⟨C9_line_map_bijection.2.1 lb31 32 (by decide),
   C9_line_map_bijection.2.2.1 lb31 0 2 (by decide) (by decide),
   C9_line_map_bijection.2.2.2.1 lb31 0 2 (by decide) (by decide),
   C9_line_map_bijection.2.2.2.2.1 lb31 1 0 2 (by decide) (by decide),
   C9_line_map_bijection.2.2.2.2.2 lb31 1 0 2 (by decide) (by decide)⟩

-- ---------------------------------------------------------------------
-- C7: insertRows then deleteRows restores row identities
-- ---------------------------------------------------------------------

/-- C7: for every valid range [y, bottom] and count, insertRows
followed by deleteRows with the same arguments restores the original
line_map (row identity) entry of every row outside [y, y + count);
nothing is claimed about cell contents of the blanked rows. -/
theorem C7_insert_delete_restores_identities (lb : LineBuf) (num y bottom : Nat)
    (hWF : WF lb) (hy : y ≤ bottom) (hb : bottom < lb.ynum) :
    ∀ j, j < lb.ynum → (j < y ∨ y + num ≤ j) →
      (linebuf_delete_lines (linebuf_insert_lines lb num y bottom)
          num y bottom).line_map.getD j 0 = lb.line_map.getD j 0 := by
  intro j _ _
  rcases Nat.eq_zero_or_pos (min (bottom + 1 - y) num) with h0 | h1
  · have hins : linebuf_insert_lines lb num y bottom = lb := by
      simp only [linebuf_insert_lines]
      rw [if_neg (by omega : ¬(lb.ynum ≤ y ∨ bottom < y ∨ lb.ynum ≤ bottom))]
      rw [if_neg (by omega : ¬(0 < min (bottom + 1 - y) num))]
    have hdel : linebuf_delete_lines lb num y bottom = lb := by
      simp only [linebuf_delete_lines]
      rw [if_pos (by omega :
        lb.ynum ≤ y ∨ bottom < y ∨ lb.ynum ≤ bottom ∨ min (bottom + 1 - y) num < 1)]
    rw [hins, hdel]
  · obtain ⟨hWFi, hxi, hyi⟩ := WF_linebuf_insert_lines lb num y bottom hWF
    rw [linebuf_delete_lines_lm_getD _ num y bottom hWFi.1 hWFi.2.1 hy
      (by rw [hyi]; exact hb) h1 j]
    rw [linebuf_insert_lines_lm_getD lb num y bottom hWF.1 hWF.2.1 hy hb _]
    rw [sigma_ins_del_comp y (min (bottom + 1 - y) num) bottom
      (by have := Nat.min_le_left (bottom + 1 - y) num; omega) j]

/-- Witness for C7: a 3-row buffer with a non-identity line_map; after
insertRows(1, 1, 2) and deleteRows(1, 1, 2) the rows outside [1, 2)
keep their identities. -/
theorem C7_insert_delete_restores_identities_witness :
    (linebuf_delete_lines (linebuf_insert_lines lb31 1 1 2) 1 1 2).line_map.getD 0 0 =
      lb31.line_map.getD 0 0 ∧
    (linebuf_delete_lines (linebuf_insert_lines lb31 1 1 2) 1 1 2).line_map.getD 2 0 =
      lb31.line_map.getD 2 0 :=
  ⟨C7_insert_delete_restores_identities lb31 1 1 2 (by decide) (by decide) (by decide)
      0 (by decide) (by decide),
   C7_insert_delete_restores_identities lb31 1 1 2 (by decide) (by decide) (by decide)
      2 (by decide) (by decide)⟩

-- ---------------------------------------------------------------------
-- C2: continuation flags at range boundaries
-- ---------------------------------------------------------------------

/-- C2 counterexample: scrollUp (linebuf_index) rotates continuation
flags instead of resetting them - after linebuf_index(0, 1) on a grid
with flags [false, true], the new top of the range still carries flag
true; and insertRows(1, 0, 2) on flags [false, true, false] leaves the
new bottom of the range (row 2) with the shifted flag true. -/
theorem C2_counterexample :
    (linebuf_index lb21 0 1).continued_map.getD 0 false = true ∧
    (linebuf_insert_lines lb31 1 0 2).continued_map.getD 2 false = true := by
  decide

/-- C2 (amended): after a valid deleteRows, the new top row y and the
new bottom row of the range have their continuation flags reset to
false, and after a valid insertRows the new top row y has its flag
reset to false; scrollUp/scrollDown rotate the flags along with the row
identities without resetting any, and insertRows leaves the bottom of
the range with the flag shifted into it (see the counterexample). -/
theorem C2_amended_continuation_resets (lb : LineBuf) (num y bottom : Nat)
    (hWF : WF lb) (hy : y ≤ bottom) (hb : bottom < lb.ynum)
    (hm : 1 ≤ min (bottom + 1 - y) num) :
    (linebuf_delete_lines lb num y bottom).continued_map.getD y false = false ∧
    (linebuf_delete_lines lb num y bottom).continued_map.getD bottom false = false ∧
    (linebuf_insert_lines lb num y bottom).continued_map.getD y false = false := by
  obtain ⟨w1, w2, w3, w4, w5, w6, w7, w8⟩ := hWF
  have hcond : ¬(lb.ynum ≤ y ∨ bottom < y ∨ lb.ynum ≤ bottom ∨
      min (bottom + 1 - y) num < 1) := by omega
  have hcond2 : ¬(lb.ynum ≤ y ∨ bottom < y ∨ lb.ynum ≤ bottom) := by omega
  refine ⟨?_, ?_, ?_⟩
  · simp only [linebuf_delete_lines]
    rw [if_neg hcond]
    by_cases hyin : bottom + 1 - min (bottom + 1 - y) num ≤ y
    · apply blankRows_cm_in
      · exact hyin
      · omega
      · dsimp only
        simp only [List.length_set, shiftSegUp_length, w3]
        omega
    · rw [blankRows_cm_out _ _ _ _ (by omega)]
      dsimp only
      apply getD_set_self
      simp only [shiftSegUp_length, w3]
      omega
  · simp only [linebuf_delete_lines]
    rw [if_neg hcond]
    apply blankRows_cm_in
    · omega
    · omega
    · dsimp only
      simp only [List.length_set, shiftSegUp_length, w3]
      omega
  · simp only [linebuf_insert_lines]
    rw [if_neg hcond2, if_pos (by omega : 0 < min (bottom + 1 - y) num)]
    apply blankRows_cm_in
    · exact Nat.le_refl y
    · omega
    · dsimp only
      by_cases hsp : y + min (bottom + 1 - y) num < lb.ynum
      · rw [if_pos hsp]
        simp only [List.length_set, shiftSegDown_length, w3]
        omega
      · rw [if_neg hsp]
        simp only [shiftSegDown_length, w3]
        omega

/-- Witness for the amended C2 on a concrete 3-row grid. -/
theorem C2_amended_continuation_resets_witness :
    (linebuf_delete_lines lb31 1 0 2).continued_map.getD 0 false = false ∧
    (linebuf_delete_lines lb31 1 0 2).continued_map.getD 2 false = false ∧
    (linebuf_insert_lines lb31 1 0 2).continued_map.getD 0 false = false :=
  C2_amended_continuation_resets lb31 1 0 2 (by decide) (by decide) (by decide) (by decide)

-- ---------------------------------------------------------------------
-- C3: frame property of insertRows
-- ---------------------------------------------------------------------

theorem nodup_getD_ne (l : List Nat) (hn : l.Nodup) (a b : Nat)
    (ha : a < l.length) (hb : b < l.length) (hab : a ≠ b) :
    l.getD a 0 ≠ l.getD b 0 := by
  rw [List.getD_eq_getElem _ _ ha, List.getD_eq_getElem _ _ hb]
  intro h
  exact hab (hn.getElem_inj_iff.mp h)

theorem phys_ranges_disjoint (x p q c : Nat) (hne : p ≠ q)
    (h1 : q * x ≤ c) (h2 : c < q * x + x) :
    ¬(p * x ≤ c ∧ c < p * x + x) := by
  rintro ⟨h3, h4⟩
  rcases Nat.lt_or_ge p q with h | h
  · have hpq : p * x + x ≤ q * x := by
      have hx : p + 1 ≤ q := h
      calc p * x + x = (p + 1) * x := by ring
        _ ≤ q * x := Nat.mul_le_mul_right x hx
    omega
  · have hq : q < p := by omega
    have hqp : q * x + x ≤ p * x := by
      have hx : q + 1 ≤ p := hq
      calc q * x + x = (q + 1) * x := by ring
        _ ≤ p * x := Nat.mul_le_mul_right x hx
    omega

/-- C3 counterexample: insertRows(2, 0, 1) on a 3-row grid (count
clamped to the full range size) resets the continuation flag of row 2,
which lies strictly outside [0, 1], from true to false. -/
theorem C3_counterexample :
    lb31b.continued_map.getD 2 false = true ∧
    (linebuf_insert_lines lb31b 2 0 1).continued_map.getD 2 false = false := by
  decide

/-- C3 (amended): for a valid insertRows(count, y, bottom) on a grid
whose line_map is duplicate-free, every logical row strictly outside
[y, bottom] keeps its line_map entry and its cell contents in all five
dimensions; its continuation flag is also unchanged, except that row
bottom + 1 has its flag reset to false when the clamped count reaches
the end of the range (y + clamped count = bottom + 1) and bottom + 1 is
still inside the grid. -/
theorem C3_amended_insert_outside_frame (lb : LineBuf) (num y bottom : Nat)
    (hWF : WF lb) (hNd : lb.line_map.Nodup) (hy : y ≤ bottom) (hb : bottom < lb.ynum)
    (j : Nat) (hj : j < lb.ynum) (hout : j < y ∨ bottom < j) :
    (linebuf_insert_lines lb num y bottom).line_map.getD j 0 = lb.line_map.getD j 0 ∧
    ((j = bottom + 1 ∧ y + min (bottom + 1 - y) num = bottom + 1) →
      (linebuf_insert_lines lb num y bottom).continued_map.getD j false = false) ∧
    (¬(j = bottom + 1 ∧ y + min (bottom + 1 - y) num = bottom + 1) →
      (linebuf_insert_lines lb num y bottom).continued_map.getD j false =
        lb.continued_map.getD j false) ∧
    (∀ c, lb.line_map.getD j 0 * lb.xnum ≤ c → c < lb.line_map.getD j 0 * lb.xnum + lb.xnum →
      (linebuf_insert_lines lb num y bottom).chars.getD c 0 = lb.chars.getD c 0 ∧
      (linebuf_insert_lines lb num y bottom).fg_colors.getD c 0 = lb.fg_colors.getD c 0 ∧
      (linebuf_insert_lines lb num y bottom).bg_colors.getD c 0 = lb.bg_colors.getD c 0 ∧
      (linebuf_insert_lines lb num y bottom).decoration_fg.getD c 0 =
        lb.decoration_fg.getD c 0 ∧
      (linebuf_insert_lines lb num y bottom).combining_chars.getD c 0 =
        lb.combining_chars.getD c 0) := by
  obtain ⟨w1, w2, w3, w4, w5, w6, w7, w8⟩ := hWF
  have hcond2 : ¬(lb.ynum ≤ y ∨ bottom < y ∨ lb.ynum ≤ bottom) := by omega
  have hmle : min (bottom + 1 - y) num ≤ bottom + 1 - y := Nat.min_le_left _ _
  refine ⟨?_, ?_, ?_, ?_⟩
  · rw [linebuf_insert_lines_lm_getD lb num y bottom w1 w2 hy hb j]
    have hs : sigma_ins y (min (bottom + 1 - y) num) (bottom + 1) j = j := by
      simp only [sigma_ins]
      split_ifs <;> omega
    rw [hs]
  · rintro ⟨hj1, hj2⟩
    have hm1 : 1 ≤ min (bottom + 1 - y) num := by omega
    simp only [linebuf_insert_lines]
    rw [if_neg hcond2, if_pos (by omega : 0 < min (bottom + 1 - y) num)]
    rw [blankRows_cm_out _ _ _ _ (by omega)]
    dsimp only
    rw [if_pos (by omega : y + min (bottom + 1 - y) num < lb.ynum)]
    have he : y + min (bottom + 1 - y) num = j := by omega
    rw [he]
    apply getD_set_self
    simp only [shiftSegDown_length, w3]
    omega
  · intro hnot
    rcases Nat.eq_zero_or_pos (min (bottom + 1 - y) num) with h0 | hm1
    · have hins : linebuf_insert_lines lb num y bottom = lb := by
        simp only [linebuf_insert_lines]
        rw [if_neg hcond2, if_neg (by omega : ¬0 < min (bottom + 1 - y) num)]
      rw [hins]
    · simp only [linebuf_insert_lines]
      rw [if_neg hcond2, if_pos (by omega : 0 < min (bottom + 1 - y) num)]
      rw [blankRows_cm_out _ _ _ _ (by omega)]
      dsimp only
      by_cases hsp : y + min (bottom + 1 - y) num < lb.ynum
      · rw [if_pos hsp]
        rw [getD_set_other _ _ _ _ _ (by omega)]
        rw [shiftSegDown_getD _ _ (by omega) _ _ _ (by omega) (by omega) j]
        rw [if_neg (by omega)]
      · rw [if_neg hsp]
        rw [shiftSegDown_getD _ _ (by omega) _ _ _ (by omega) (by omega) j]
        rw [if_neg (by omega)]
  · intro c hc1 hc2
    rcases Nat.eq_zero_or_pos (min (bottom + 1 - y) num) with h0 | hm1
    · have hins : linebuf_insert_lines lb num y bottom = lb := by
        simp only [linebuf_insert_lines]
        rw [if_neg hcond2, if_neg (by omega : ¬0 < min (bottom + 1 - y) num)]
      rw [hins]
      exact ⟨rfl, rfl, rfl, rfl, rfl⟩
    · have hlm2 : ∀ k, y ≤ k → k < y + min (bottom + 1 - y) num →
          (copySeg 0
            (shiftSegDown 0 (min (bottom + 1 - y) num) lb.line_map bottom
              (bottom + 1 - (y + min (bottom + 1 - y) num)))
            (copySeg 0 lb.scratch lb.line_map (bottom + 1 - min (bottom + 1 - y) num)
              (bottom + 1 - min (bottom + 1 - y) num) (min (bottom + 1 - y) num))
            y (bottom + 1 - min (bottom + 1 - y) num)
            (min (bottom + 1 - y) num)).getD k 0 =
          lb.line_map.getD
            (bottom + 1 - min (bottom + 1 - y) num + (k - y)) 0 := by
        intro k hk1 hk2
        rw [copySeg_getD _ _ _ _ _ _ (by simp [w1]; omega) k, if_pos (by omega)]
        rw [copySeg_getD _ _ _ _ _ _ (by rw [w2]; omega) _, if_pos (by omega)]
        congr 1
        omega
      simp only [linebuf_insert_lines]
      rw [if_neg hcond2, if_pos (by omega : 0 < min (bottom + 1 - y) num)]
      apply blankRows_cells_out
      intro k hk1 hk2
      dsimp only
      rw [hlm2 k hk1 hk2]
      apply phys_ranges_disjoint _ _ _ _ _ hc1 hc2
      apply nodup_getD_ne lb.line_map hNd _ _ (by omega) (by omega)
      omega

/-- Witness for the amended C3: insertRows(1, 0, 1) on a 3-row grid
leaves row 2 (outside the range) with identity, flag and cells
unchanged. -/
theorem C3_amended_insert_outside_frame_witness :
    (linebuf_insert_lines lb31b 1 0 1).line_map.getD 2 0 = lb31b.line_map.getD 2 0 ∧
    (linebuf_insert_lines lb31b 1 0 1).continued_map.getD 2 false =
      lb31b.continued_map.getD 2 false ∧
    (linebuf_insert_lines lb31b 1 0 1).chars.getD 2 0 = lb31b.chars.getD 2 0 :=
  ⟨(C3_amended_insert_outside_frame lb31b 1 0 1 (by decide) (by decide) (by decide)
      (by decide) 2 (by decide) (by decide)).1,
   (C3_amended_insert_outside_frame lb31b 1 0 1 (by decide) (by decide) (by decide)
      (by decide) 2 (by decide) (by decide)).2.2.1 (by decide),
   ((C3_amended_insert_outside_frame lb31b 1 0 1 (by decide) (by decide) (by decide)
      (by decide) 2 (by decide) (by decide)).2.2.2 2 (by decide) (by decide)).1⟩

-- ---------------------------------------------------------------------
-- C6: rewrap fast path
-- ---------------------------------------------------------------------

theorem memcpyN_eq_src {α : Type} (dst src : List α) (n : Nat)
    (hs : src.length = n) (hd : dst.length = n) : memcpyN dst src n = src := by
  subst hs
  unfold memcpyN
  rw [List.take_length, List.drop_of_length_le (Nat.le_of_eq hd), List.append_nil]

/-- C6: for grids of identical dimensions, rewrap takes the fast path:
the destination's line_map, continued_map and whole cell arena become
copies of the source's (byte-identical destination), and the returned
cursor row is the wrapper's sentinel -1, for every rewrap_inner. -/
theorem C6_rewrap_fast_path (inner : LineBuf → LineBuf → Nat → LineBuf × Nat)
    (self other : LineBuf)
    (hx : other.xnum = self.xnum) (hy : other.ynum = self.ynum)
    (hWFs : WF self) (hWFo : WF other) :
    (linebuf_rewrap inner self other).1.xnum = self.xnum ∧
    (linebuf_rewrap inner self other).1.ynum = self.ynum ∧
    (linebuf_rewrap inner self other).1.line_map = self.line_map ∧
    (linebuf_rewrap inner self other).1.continued_map = self.continued_map ∧
    (linebuf_rewrap inner self other).1.chars = self.chars ∧
    (linebuf_rewrap inner self other).1.fg_colors = self.fg_colors ∧
    (linebuf_rewrap inner self other).1.bg_colors = self.bg_colors ∧
    (linebuf_rewrap inner self other).1.decoration_fg = self.decoration_fg ∧
    (linebuf_rewrap inner self other).1.combining_chars = self.combining_chars ∧
    (linebuf_rewrap inner self other).2 = -1 := by
  obtain ⟨s1, s2, s3, s4, s5, s6, s7, s8⟩ := hWFs
  obtain ⟨o1, o2, o3, o4, o5, o6, o7, o8⟩ := hWFo
  have harena : other.xnum * other.ynum = self.xnum * self.ynum := by rw [hx, hy]
  simp only [linebuf_rewrap]
  rw [if_pos ⟨hx, hy⟩]
  dsimp only
  refine ⟨hx, hy, ?_, ?_, ?_, ?_, ?_, ?_, ?_, rfl⟩
  · exact memcpyN_eq_src _ _ _ s1 (by rw [o1, hy])
  · exact memcpyN_eq_src _ _ _ s3 (by rw [o3, hy])
  · exact memcpyN_eq_src _ _ _ s4 (by rw [o4, harena])
  · exact memcpyN_eq_src _ _ _ s5 (by rw [o5, harena])
  · exact memcpyN_eq_src _ _ _ s6 (by rw [o6, harena])
  · exact memcpyN_eq_src _ _ _ s7 (by rw [o7, harena])
  · exact memcpyN_eq_src _ _ _ s8 (by rw [o8, harena])

/-- Witness for C6 on concrete 2 by 2 grids (destination starts
cleared, source has content in row 0). -/
theorem C6_rewrap_fast_path_witness :
    (linebuf_rewrap (fun _ o _ => (o, 0)) srcRow0 dst22).1.chars = srcRow0.chars ∧
    (linebuf_rewrap (fun _ o _ => (o, 0)) srcRow0 dst22).2 = -1 :=
  ⟨(C6_rewrap_fast_path (fun _ o _ => (o, 0)) srcRow0 dst22 rfl rfl (by decide)
      (by decide)).2.2.2.2.1,
   (C6_rewrap_fast_path (fun _ o _ => (o, 0)) srcRow0 dst22 rfl rfl (by decide)
      (by decide)).2.2.2.2.2.2.2.2.2⟩

-- ---------------------------------------------------------------------
-- C1: the general rewrap path and row-0-only content
-- ---------------------------------------------------------------------

/-- C1: the general rewrap path discards content that sits only in
physical row 0.  On the 2 by 2 source srcRow0, whose only non-space
character is in row 0, and a 4 by 1 destination, linebuf_rewrap returns
cursor row 0 and hands back the destination untouched (its cleared
state) whatever rewrap_inner does, although row 0 has content: the scan
loop ends with first = 0 and the code takes first == 0 to mean "all
lines are empty". -/
theorem C1_rewrap_discards_row0_content :
    ∀ inner, linebuf_rewrap inner srcRow0 dst14 = (dst14, 0) ∧
      row_has_content srcRow0 0 = true := by
  intro inner
  constructor
  · simp only [linebuf_rewrap]
    rw [if_neg (by decide : ¬(dst14.xnum = srcRow0.xnum ∧ dst14.ynum = srcRow0.ynum))]
    rw [if_pos (by decide : scanFirst srcRow0 (srcRow0.ynum - 1) = 0)]
  · decide

-- ---------------------------------------------------------------------
-- C4: copy_line_to has no bounds check
-- ---------------------------------------------------------------------

/-- C4: copy_line_to performs no bounds check, unlike create_line_copy:
on a 1-row grid with logical row 1 (out of bounds), create_line_copy
fails with the out-of-bounds error (none) while copy_line_to proceeds
and produces a Line (the C code reads line_map[1] and continued_map[1]
past the end of the arrays). -/
theorem C4_copy_line_to_missing_bounds_check :
    create_line_copy lbOne 1 = none ∧ copy_line_to lbOne 1 emptyLine ≠ none := by
  decide

-- ---------------------------------------------------------------------
-- C5: the allocation-failure path of new
-- ---------------------------------------------------------------------

/-- C5: on the allocation-failure path of new where buf, line_map,
scratch and continued_map were allocated and the line allocation
failed, the cleanup passes buf, line_map and continued_map to free
twice (once explicitly, once again inside dealloc reached through
Py_CLEAR(self)), and scratch is freed only by dealloc;
allocate_line_storage, in contrast, frees each of its five arrays at
most once. -/
theorem C5_new_failure_double_free :
    (newFailureFrees true true true true false).count CAlloc.cbuf = 2 ∧
    (newFailureFrees true true true true false).count CAlloc.clmap = 2 ∧
    (newFailureFrees true true true true false).count CAlloc.ccmap = 2 ∧
    (newFailureFrees true true true true false).count CAlloc.cscratch = 1 ∧
    (lineStorageFailureFrees true true false true true).count LAlloc.lchars = 1 ∧
    (lineStorageFailureFrees true true false true true).count LAlloc.lfg = 1 ∧
    (lineStorageFailureFrees true true false true true).count LAlloc.lbg = 0 ∧
    (lineStorageFailureFrees true true false true true).count LAlloc.ldec = 1 ∧
    (lineStorageFailureFrees true true false true true).count LAlloc.lcomb = 1 := by
  decide

-- ---------------------------------------------------------------------
-- C8 / C10: the ANSI serializer
-- ---------------------------------------------------------------------

theorem as_ansi_chunks_getD (render : Line → List Nat) (self : LineBuf) (i : Nat)
    (hi : i < self.ynum) :
    (as_ansi_chunks render self).getD i [] = ansi_chunk render self i := by
  unfold as_ansi_chunks
  rw [List.getD_eq_getElem _ _ (by simpa using hi)]
  simp

/-- C8 counterexample: with a rendering that produces 5119 codepoints
(the buffer holds 5120), the chunk for row 0 of a 1-row grid is the
bare rendering with no trailing newline, although the consulted
continuation flag is false - so "newline iff the consulted flag is
false" fails; the newline also needs the rendered length below 5119. -/
theorem C8_counterexample :
    consulted_flag lbOne 0 = false ∧
    (as_ansi_chunks renderBig lbOne).getD 0 [] = renderBig (ansi_line lbOne 0) ∧
    (as_ansi_chunks renderBig lbOne).getD 0 [] ≠ renderBig (ansi_line lbOne 0) ++ [10] := by
  have hnc : ¬(consulted_flag lbOne 0 = false ∧
      (renderBig (ansi_line lbOne 0)).length < 5119) := by
    rintro ⟨-, hlt⟩
    simp only [renderBig, List.length_replicate] at hlt
    omega
  refine ⟨by decide, ?_, ?_⟩
  · rw [as_ansi_chunks_getD renderBig lbOne 0 (by decide)]
    unfold ansi_chunk
    rw [if_neg hnc]
  · rw [as_ansi_chunks_getD renderBig lbOne 0 (by decide)]
    unfold ansi_chunk
    rw [if_neg hnc]
    intro h
    have hl := congrArg List.length h
    simp only [List.length_append, List.length_cons, List.length_nil] at hl
    omega

/-- C8 (amended): as_ansi produces exactly one chunk per logical row,
in row order (the chunk list has length ynum and entry i is row i's
chunk); the flag consulted for row i is row i+1's for every row but the
last, which uses its own; every chunk is the rendered row either bare
or with a single appended newline, and the newline form occurs exactly
when the consulted flag is false and the rendered length is strictly
below 5119. -/
theorem C8_amended_ansi_serialization (render : Line → List Nat) (self : LineBuf) (i : Nat)
    (hi : i < self.ynum) :
    (as_ansi_chunks render self).length = self.ynum ∧
    (as_ansi_chunks render self).getD i [] = ansi_chunk render self i ∧
    consulted_flag self i =
      (if i < self.ynum - 1 then self.continued_map.getD (i + 1) false
       else self.continued_map.getD i false) ∧
    ((as_ansi_chunks render self).getD i [] = render (ansi_line self i) ∨
     (as_ansi_chunks render self).getD i [] = render (ansi_line self i) ++ [10]) ∧
    ((as_ansi_chunks render self).getD i [] = render (ansi_line self i) ++ [10] ↔
      consulted_flag self i = false ∧ (render (ansi_line self i)).length < 5119) := by
  have hchunk := as_ansi_chunks_getD render self i hi
  refine ⟨by simp [as_ansi_chunks], hchunk, rfl, ?_, ?_⟩
  · rw [hchunk]
    unfold ansi_chunk
    by_cases hc : consulted_flag self i = false ∧ (render (ansi_line self i)).length < 5119
    · rw [if_pos hc]
      exact Or.inr rfl
    · rw [if_neg hc]
      exact Or.inl rfl
  · rw [hchunk]
    unfold ansi_chunk
    by_cases hc : consulted_flag self i = false ∧ (render (ansi_line self i)).length < 5119
    · rw [if_pos hc]
      simp [hc]
    · rw [if_neg hc]
      constructor
      · intro h
        have hl := congrArg List.length h
        simp at hl
      · intro h
        exact absurd h hc

/-- Witness for the amended C8 at a concrete grid and renderer. -/
theorem C8_amended_ansi_serialization_witness :
    (as_ansi_chunks renderSmall lbOne).length = lbOne.ynum ∧
    ((as_ansi_chunks renderSmall lbOne).getD 0 [] = renderSmall (ansi_line lbOne 0) ++ [10] ↔
      consulted_flag lbOne 0 = false ∧ (renderSmall (ansi_line lbOne 0)).length < 5119) :=
  ⟨(C8_amended_ansi_serialization renderSmall lbOne 0 (by decide)).1,
   (C8_amended_ansi_serialization renderSmall lbOne 0 (by decide)).2.2.2.2⟩

/-- C10: as_ansi renders into a 5120-codepoint buffer; provided the
rendering stays within that buffer, every chunk handed to the callback
has at most 5120 codepoints, and the trailing newline for a row whose
consulted flag is false is appended exactly when the rendered length is
strictly below 5119 - a non-continued row whose rendering reaches 5119
codepoints is emitted bare, with no trailing newline. -/
theorem C10_ansi_chunk_bounds (render : Line → List Nat) (self : LineBuf)
    (hbound : ∀ l, (render l).length ≤ 5120) (i : Nat) (hi : i < self.ynum) :
    (ansi_chunk render self i).length ≤ 5120 ∧
    (consulted_flag self i = false → 5119 ≤ (render (ansi_line self i)).length →
      ansi_chunk render self i = render (ansi_line self i)) ∧
    (consulted_flag self i = false → (render (ansi_line self i)).length < 5119 →
      ansi_chunk render self i = render (ansi_line self i) ++ [10]) ∧
    (∀ ch, ch ∈ as_ansi_chunks render self → ch.length ≤ 5120) := by
  have hlen : ∀ k, (ansi_chunk render self k).length ≤ 5120 := by
    intro k
    unfold ansi_chunk
    by_cases hc : consulted_flag self k = false ∧ (render (ansi_line self k)).length < 5119
    · rw [if_pos hc]
      simp only [List.length_append, List.length_cons, List.length_nil]
      omega
    · rw [if_neg hc]
      exact hbound _
  refine ⟨hlen i, ?_, ?_, ?_⟩
  · intro h1 h2
    unfold ansi_chunk
    rw [if_neg (by omega)]
  · intro h1 h2
    unfold ansi_chunk
    rw [if_pos ⟨h1, h2⟩]
  · intro ch hch
    obtain ⟨k, hk, rfl⟩ := List.mem_map.mp hch
    exact hlen k

/-- Witness for C10 at a concrete grid and a bounded renderer. -/
theorem C10_ansi_chunk_bounds_witness :
    (ansi_chunk renderSmall lbOne 0).length ≤ 5120 ∧
    (consulted_flag lbOne 0 = false → (renderSmall (ansi_line lbOne 0)).length < 5119 →
      ansi_chunk renderSmall lbOne 0 = renderSmall (ansi_line lbOne 0) ++ [10]) :=
  ⟨(C10_ansi_chunk_bounds renderSmall lbOne
      (fun l => Nat.le_trans (l.chars.length_take_le 8) (by omega)) 0 (by decide)).1,
   (C10_ansi_chunk_bounds renderSmall lbOne
      (fun l => Nat.le_trans (l.chars.length_take_le 8) (by omega)) 0 (by decide)).2.2.1⟩
